import Mathlib

/-
Verification development for the journal-abbrev object store
(src/journalabbrev/db.py and src/journalabbrev/common.py).

The Python code is shallowly embedded: the Journal record model, the
msgpack-based codec (`_encode`/`_decode`/`_pack`/`_unpack`), the deepmerge
three-way merge engine, the RocksDB-backed store (column families modelled
as association lists, WriteBatch as a list of operations applied by a fold)
and the JournalList facade (add/remove/update/merge/get/query).

The embedding covers the ASCII fragment of the string functions: Python's
`str.casefold` is per-character lowering, `unicodedata.category(c)[0] ∈
\x7bL, N, Z\x7d` is letter/digit/space, and `\w`/`\s` of the `re` module are the
ASCII word and whitespace classes.  Every string appearing in the claims is
ASCII, so the fragment is faithful on all inputs exercised here.
-/

/-! ## Name sanitization (JournalList.sanitize_journal_name)

`_ignorable_words_regex = \b(?:(the|a|le|la|les|li|gli|el|los|las|der|die|das)\s|(l)')`
compiled with IGNORECASE, applied by `re.sub(..., "", name)`, i.e. every
non-overlapping match anywhere in the string is removed, scanning left to
right.  A match starts at a word boundary, consists of one of the listed
article words followed by one whitespace character, or the letter `l`
followed by an apostrophe. -/

def casefold (s : String) : String :=
  String.mk (s.toList.map Char.toLower)

def isWordChar (c : Char) : Bool :=
  c.isAlpha || c.isDigit || c == '_'

def isSpaceChar (c : Char) : Bool :=
  c == ' ' || c == '\t' || c == '\n' || c == '\r' || c == '\x0b' || c == '\x0c'

def lowerEq (a b : Char) : Bool :=
  a.toLower == b.toLower

/-- Case-insensitive "the word w starts the character list s". -/
def lciStarts : List Char → List Char → Bool
  | [], _ => true
  | _ :: _, [] => false
  | c :: w, x :: s => lowerEq c x && lciStarts w s

/-- The article alternation of `_ignorable_words_regex`, in source order. -/
def ignorable_words : List (List Char) :=
  ["the", "a", "le", "la", "les", "li", "gli", "el", "los", "las",
   "der", "die", "das"].map String.toList

/-- Length of the regex match starting at the head of `s` (word boundary at
the head is checked by the caller): an article word followed by one
whitespace character, tried in alternation order, else `l` + apostrophe. -/
def matchLen (s : List Char) : Option Nat :=
  match ignorable_words.find? (fun w => lciStarts w s && (s.drop w.length).head?.any isSpaceChar) with
  | some w => some (w.length + 1)
  | none =>
    match s with
    | x :: y :: _ => if lowerEq 'l' x && y == '\'' then some 2 else none
    | _ => none

theorem matchLen_pos {s : List Char} {n : Nat} (h : matchLen s = some n) : 0 < n := by
  unfold matchLen at h
  split at h
  · cases h
    exact Nat.succ_pos _
  · split at h
    · split at h
      · cases h
        exact Nat.succ_pos _
      · cases h
    · cases h

/-- `re.sub` of the ignorable-words regex: scan left to right; at every word
boundary (tracked by the wordness of the previous character, string start
counting as non-word) remove a match if one starts there, otherwise copy the
character.  After a removed match the previous character is the matched
whitespace or apostrophe, which is non-word.  Recursion is structural on a
fuel argument; each step consumes at least one character, so fuel equal to
the list length (supplied by `subIgnorable`) never runs out. -/
def subIgnorableGo : Nat → Bool → List Char → List Char
  | _, _, [] => []
  | 0, _, l => l
  | fuel + 1, prevW, x :: rest =>
    if prevW == isWordChar x then
      x :: subIgnorableGo fuel (isWordChar x) rest
    else
      match matchLen (x :: rest) with
      | some n => subIgnorableGo fuel false (List.drop n (x :: rest))
      | none => x :: subIgnorableGo fuel (isWordChar x) rest

def subIgnorable (prevW : Bool) (l : List Char) : List Char :=
  subIgnorableGo l.length prevW l

/-- Python: `unicodedata.category(char)[0] in ("L", "N", "Z") or char == ":"`
(ASCII fragment: letters, digits, the space character, and the colon). -/
def keepChar (c : Char) : Bool :=
  c.isAlpha || c.isDigit || c == ' ' || c == ':'

namespace JournalList

/-- `JournalList.sanitize_journal_name`: remove every regex match, then keep
only letter/number/separator/colon characters.  (The source's preallocated
char array plus `islice` is exactly a filter.)  Note: no case folding here;
callers apply `.casefold()` when deriving index keys. -/
def sanitize_journal_name (name : String) : String :=
  String.mk ((subIgnorable false name.toList).filter keepChar)

end JournalList

/-- The secondary-index key derived from a display name, as computed at every
index write/lookup site in `add`, `rebuild_indexes` and `query`:
`sanitize_journal_name(name).casefold()`. -/
def index_key (name : String) : String :=
  casefold (JournalList.sanitize_journal_name name)

example : index_key "The Journal of Foo: A Study" = "journal of foo: study" := by decide
example : index_key "Foo the Bar" = "foo bar" := by decide
example : JournalList.sanitize_journal_name "la la land" = "land" := by decide
example : JournalList.sanitize_journal_name "Thesis about" = "Thesis about" := by decide
example : index_key "Foo" = "foo" := by decide

/-! ## Association-list maps

Python dicts (for `fromdict`) and the RocksDB column families (key-value
namespaces with put/delete/get) are modelled as association lists with
first-match lookup; `aput` overwrites the existing binding. -/

def aget {α β : Type} [DecidableEq α] : List (α × β) → α → Option β
  | [], _ => none
  | p :: m, k => if p.1 = k then some p.2 else aget m k

def aput {α β : Type} [DecidableEq α] : List (α × β) → α → β → List (α × β)
  | [], k, v => [(k, v)]
  | p :: m, k, v => if p.1 = k then (k, v) :: m else p :: aput m k v

def adel {α β : Type} [DecidableEq α] : List (α × β) → α → List (α × β)
  | [], _ => []
  | p :: m, k => if p.1 = k then adel m k else p :: adel m k

theorem aget_aput_self {α β : Type} [DecidableEq α] (m : List (α × β)) (k : α) (v : β) :
    aget (aput m k v) k = some v := by
  induction m with
  | nil => simp [aget, aput]
  | cons p m ih =>
    by_cases h : p.1 = k
    · simp [aget, aput, h]
    · simp [aget, aput, h, ih]

theorem aget_aput_ne {α β : Type} [DecidableEq α] (m : List (α × β)) (k k' : α) (v : β)
    (h : k ≠ k') : aget (aput m k v) k' = aget m k' := by
  induction m with
  | nil => simp [aget, aput, h]
  | cons p m ih =>
    by_cases hp : p.1 = k
    · simp [aget, aput, hp, h, Ne.symm h]
    · by_cases hp' : p.1 = k'
      · simp [aget, aput, hp, hp', Ne.symm h]
      · simp [aget, aput, hp, hp', ih]

theorem aget_adel_self {α β : Type} [DecidableEq α] (m : List (α × β)) (k : α) :
    aget (adel m k) k = none := by
  induction m with
  | nil => simp [aget, adel]
  | cons p m ih =>
    by_cases h : p.1 = k
    · simp [adel, h, ih]
    · simp [aget, adel, h, ih]

theorem aget_adel_ne {α β : Type} [DecidableEq α] (m : List (α × β)) (k k' : α)
    (h : k ≠ k') : aget (adel m k) k' = aget m k' := by
  induction m with
  | nil => simp [adel]
  | cons p m ih =>
    by_cases hp : p.1 = k
    · subst hp
      simp [aget, adel, h, ih]
    · simp [aget, adel, hp, ih]

/-! ## Record model (Journal)

`Journal(DBObject)` declares, in order: `names : Set[str]` and the optional
scalar strings `issn_print`, `issn_web`, `iso4`, `coden`.  `names` is
constructed as a set in `__init__`; the scalar fields default to None
(modelled as `Option.none`).  Python sets of strings are modelled as
`Finset String`. -/

structure Journal where
  names : Finset String
  issn_print : Option String := none
  issn_web : Option String := none
  iso4 : Option String := none
  coden : Option String := none
deriving DecidableEq

/-! ## Canonical enumeration of a string set

Python iterates a `set` in an arbitrary, insignificant order (decoding
rebuilds a set, so only membership is guaranteed).  The model enumerates a
`Finset String` in a fixed total order — lexicographic on the character
list, which is kernel-computable. -/

def strOrd (a b : String) : Prop :=
  a.toList ≤ b.toList

instance : DecidableRel strOrd := fun a b =>
  inferInstanceAs (Decidable (a.toList ≤ b.toList))

instance : IsTotal String strOrd :=
  ⟨fun a b => le_total a.toList b.toList⟩

instance : IsTrans String strOrd :=
  ⟨fun _ _ _ h1 h2 => le_trans h1 h2⟩

instance : IsAntisymm String strOrd :=
  ⟨fun a b h1 h2 => by
    cases a
    cases b
    exact congrArg String.mk (le_antisymm h1 h2)⟩

def setSort (s : Finset String) : List String :=
  Quot.liftOn s.val (fun l => l.insertionSort strOrd) (fun l l' h =>
    List.eq_of_perm_of_sorted
      ((List.perm_insertionSort _ l).trans (h.trans (List.perm_insertionSort _ l').symm))
      (List.sorted_insertionSort _ l) (List.sorted_insertionSort _ l'))

theorem mem_setSort {s : Finset String} {a : String} : a ∈ setSort s ↔ a ∈ s := by
  rcases s with ⟨m, hm⟩
  induction m using Quot.inductionOn with
  | h l =>
    show a ∈ l.insertionSort strOrd ↔ _
    rw [(List.perm_insertionSort strOrd l).mem_iff]
    exact Iff.rfl

theorem setSort_toFinset (s : Finset String) : (setSort s).toFinset = s := by
  ext a
  rw [List.mem_toFinset, mem_setSort]

/-! ## Codec (`_encode` / `_decode` / `_pack` / `_unpack`)

msgpack values are modelled by `MsgValue`; an extension value's byte payload
(itself produced by a nested `packb`) is modelled as the packed value. -/

inductive MsgValue where
  | str : String → MsgValue
  | int : Int → MsgValue
  | bool : Bool → MsgValue
  | nil : MsgValue
  | arr : List MsgValue → MsgValue
  | map : List (String × MsgValue) → MsgValue
  | ext : Nat → MsgValue → MsgValue

/-- Python-side values passed to `_pack` or produced by `_unpack`.
`other` stands for an object of a type unknown to the codec, carrying the
type's name; `ext` is a preserved `msgpack.ExtType(code, data)`; `unmodeled`
marks decoded shapes outside the Journal field schema, which the codec of
this program never produces (see `decodeFieldValue`). -/
inductive PyValue where
  | str : String → PyValue
  | int : Int → PyValue
  | bool : Bool → PyValue
  | none : PyValue
  | set : Finset String → PyValue
  | journal : Journal → PyValue
  | ext : Nat → MsgValue → PyValue
  | other : String → PyValue
  | unmodeled : MsgValue → PyValue

/-- The spec's EncodingError kind: `_encode` raises
`TypeError(f"Unknown type ...")` naming the offending type. -/
structure EncodingError where
  typeName : String
deriving DecidableEq

/-- ExtType 1: a set of strings is encoded as the packed tuple of its
elements.  Python's set iteration order is arbitrary and not significant
(decoding rebuilds a set); the model enumerates in sorted order. -/
def encodeSet (s : Finset String) : MsgValue :=
  .ext 1 (.arr ((setSort s).map .str))

def optField (key : String) : Option String → List (String × MsgValue)
  | some s => [(key, .str s)]
  | none => []

/-- `DBObject.asdict`: the public attributes, in declaration order, keeping
only non-None values, with each value encoded.  `names` (a set, never None
on a constructed Journal) is always present. -/
def Journal.asdict_enc (j : Journal) : List (String × MsgValue) :=
  [("names", encodeSet j.names)]
    ++ optField "issn_print" j.issn_print
    ++ optField "issn_web" j.issn_web
    ++ optField "iso4" j.iso4
    ++ optField "coden" j.coden

/-- ExtType 10: a Journal is encoded as the packed mapping of its non-absent
fields. -/
def encodeJournal (j : Journal) : MsgValue :=
  .ext 10 (.map (Journal.asdict_enc j))

/-- `_pack(obj, _encode)`: msgpack packs scalars and ExtType values natively
and calls the `default` hook `_encode` for sets, Journals and anything else;
`_encode` fails on an unrecognized type with an error naming it.  `.unmodeled`
marks decoded shapes outside the Journal schema; the program never re-packs
such values, and the model maps them to the same unknown-type failure. -/
def encodeVal : PyValue → Except EncodingError MsgValue
  | .str s => .ok (.str s)
  | .int n => .ok (.int n)
  | .bool b => .ok (.bool b)
  | .none => .ok .nil
  | .set s => .ok (encodeSet s)
  | .journal j => .ok (encodeJournal j)
  | .ext c p => .ok (.ext c p)
  | .other t => .error ⟨t⟩
  | .unmodeled _ => .error ⟨"unmodeled"⟩

def strOfMsg : MsgValue → Option String
  | .str s => some s
  | _ => none

/-- Code-1 payload: `set(msgpack.unpackb(data, ext_hook = _decode))` — the
packed tuple of the set's elements, each decoded; in the Journal schema the
elements are strings. -/
def decodeSetPayload : MsgValue → Finset String
  | .arr l => (l.filterMap strOfMsg).toFinset
  | _ => ∅

/-- A value of the journal mapping, decoded recursively through the ext
hook.  In the Journal field schema such a value is a string or an ExtType-1
set; other shapes (bare arrays/maps, nested ExtType-10 records) cannot occur
in codec output for this record type and are marked `.unmodeled`. -/
def decodeFieldValue : MsgValue → PyValue
  | .str s => .str s
  | .int n => .int n
  | .bool b => .bool b
  | .nil => .none
  | .ext c p =>
    if c = 1 then .set (decodeSetPayload p) else .unmodeled (.ext c p)
  | v => .unmodeled v

def decodeMapPayload : MsgValue → List (String × PyValue)
  | .map l => l.map (fun kv => (kv.1, decodeFieldValue kv.2))
  | _ => []

/-- `DBObject.fromdict`: the instance dictionary is assigned wholesale, and
attribute reads fall back to the class defaults (None) for missing keys.
Codec output for a Journal always contains the names set, so the None
default for a missing or ill-shaped entry is modelled by the empty set. -/
def Journal.fromdict (d : List (String × PyValue)) : Journal :=
  { names :=
      match aget d "names" with
      | some (.set s) => s
      | _ => ∅
    issn_print :=
      match aget d "issn_print" with
      | some (.str s) => some s
      | _ => none
    issn_web :=
      match aget d "issn_web" with
      | some (.str s) => some s
      | _ => none
    iso4 :=
      match aget d "iso4" with
      | some (.str s) => some s
      | _ => none
    coden :=
      match aget d "coden" with
      | some (.str s) => some s
      | _ => none }

/-- `_decode(code, data)`: code 1 rebuilds a set from the unpacked tuple;
code 10 rebuilds a Journal from the unpacked mapping; any other code is
preserved as-is as `ExtType(code, data)`, payload intact. -/
def decode_hook (code : Nat) (data : MsgValue) : PyValue :=
  if code = 1 then .set (decodeSetPayload data)
  else if code = 10 then .journal (Journal.fromdict (decodeMapPayload data))
  else .ext code data

/-- `_unpack(data, _decode)` on a packed value: scalars unpack natively,
extension values go through the hook.  Bare arrays/maps never occur at the
top level of a stored value in this program. -/
def decodeVal : MsgValue → PyValue
  | .str s => .str s
  | .int n => .int n
  | .bool b => .bool b
  | .nil => .none
  | .ext c p => decode_hook c p
  | v => .unmodeled v

theorem strs_roundtrip (l : List String) :
    l.filterMap (strOfMsg ∘ MsgValue.str) = l := by
  induction l with
  | nil => rfl
  | cons x xs ih => simp [List.filterMap_cons, strOfMsg, Function.comp, ih]

theorem decodeSet_encodeSet (s : Finset String) :
    decodeSetPayload (.arr ((setSort s).map .str)) = s := by
  simp only [decodeSetPayload, List.filterMap_map, strs_roundtrip, setSort_toFinset]

/-! ## Merge engine (three-way reconciliation)

`Journal._merger` combines type strategies (set → `SetStrategies.strategy_union`,
DBObject → `DBObject._merge_strategy`) with `merge_strategy_xor` as both the
fallback and the type-conflict strategy.  `DBObject._merge_strategy` walks the
public attributes of `nxt` in declaration order; a falsy base attribute (None,
empty string, empty set) adopts the incoming value, otherwise the per-type
value strategy runs at path `path + [attr_name]`.  When every strategy returns
STRATEGY_END (both scalars present, unequal), deepmerge raises `InvalidMerge`
whose `merge_args` carry the path and both conflicting values — the spec's
MergeConflict kind (the CLI unpacks `e.merge_args` into
`_, attr, base, nxt`).  The exception propagates out of `Merger.merge`
before any store write.  `_merge_strategy` mutates the in-memory `base`
object field by field, but stored state changes only via the subsequent
`update`, so an aborted merge leaves the store untouched; the model returns
`.error` carrying the conflict. -/

structure MergeConflict where
  path : List String
  base_value : String
  nxt_value : String
deriving DecidableEq

/-- Python truthiness of an optional string: None and "" are falsy. -/
def truthyStr : Option String → Bool
  | Option.none => false
  | some s => if s = "" then false else true

/-- One scalar attribute of `_merge_strategy`: a falsy base adopts `nxt`;
otherwise `merge_strategy_xor` runs (absent side loses, equal values kept,
both present and unequal is a conflict at this path). -/
def merge_scalar (path : List String) (base nxt : Option String) :
    Except MergeConflict (Option String) :=
  if truthyStr base then
    match base, nxt with
    | some b, Option.none => .ok (some b)
    | some b, some v => if b = v then .ok (some b) else .error ⟨path, b, v⟩
    | Option.none, _ => .ok nxt
  else .ok nxt

/-- `Journal.merge(base, nxt)` = `Journal._merger.merge(base, nxt)`: the set
field merges by union in every case (a falsy — empty — base adopting `nxt`
equals the union), scalars in declaration order by `merge_scalar`; the first
conflict aborts the merge, propagating the conflict. -/
def Journal.merge (base nxt : Journal) : Except MergeConflict Journal :=
  match merge_scalar ["issn_print"] base.issn_print nxt.issn_print with
  | .error c => .error c
  | .ok ip =>
    match merge_scalar ["issn_web"] base.issn_web nxt.issn_web with
    | .error c => .error c
    | .ok iw =>
      match merge_scalar ["iso4"] base.iso4 nxt.iso4 with
      | .error c => .error c
      | .ok i4 =>
        match merge_scalar ["coden"] base.coden nxt.coden with
        | .error c => .error c
        | .ok cd =>
          .ok { names := base.names ∪ nxt.names, issn_print := ip, issn_web := iw,
                iso4 := i4, coden := cd }

inductive ScalarField where
  | issn_print
  | issn_web
  | iso4
  | coden
deriving DecidableEq

def Journal.scalar (j : Journal) : ScalarField → Option String
  | .issn_print => j.issn_print
  | .issn_web => j.issn_web
  | .iso4 => j.iso4
  | .coden => j.coden

def ScalarField.fieldName : ScalarField → String
  | .issn_print => "issn_print"
  | .issn_web => "issn_web"
  | .iso4 => "iso4"
  | .coden => "coden"

/-- Both sides carry a present (truthy base) value for field `f` and the
values differ — the situation `merge_strategy_xor` cannot resolve. -/
def conflictOn (base nxt : Journal) (f : ScalarField) : Prop :=
  ∃ a b, base.scalar f = some a ∧ a ≠ "" ∧ nxt.scalar f = some b ∧ a ≠ b

theorem merge_scalar_ok {p : List String} {base nxt r : Option String}
    (h : merge_scalar p base nxt = .ok r) :
    ∀ a b, base = some a → a ≠ "" → nxt = some b → a = b := by
  intro a b hb hne hn
  subst hb
  subst hn
  by_cases hab : a = b
  · exact hab
  · simp [merge_scalar, truthyStr, hne, hab] at h

theorem merge_scalar_error {p : List String} {base nxt : Option String} {c : MergeConflict}
    (h : merge_scalar p base nxt = .error c) :
    ∃ a b, base = some a ∧ a ≠ "" ∧ nxt = some b ∧ a ≠ b ∧ c = ⟨p, a, b⟩ := by
  cases base with
  | none => simp [merge_scalar, truthyStr] at h
  | some a =>
    by_cases ha : a = ""
    · subst ha
      simp [merge_scalar, truthyStr] at h
    · cases nxt with
      | none => simp [merge_scalar, truthyStr, ha] at h
      | some b =>
        by_cases hab : a = b
        · simp [merge_scalar, truthyStr, ha, hab] at h
        · refine ⟨a, b, rfl, ha, rfl, hab, ?_⟩
          simp [merge_scalar, truthyStr, ha, hab] at h
          exact h.symm

theorem merge_scalar_falsy {p : List String} {base nxt : Option String}
    (h : truthyStr base = false) : merge_scalar p base nxt = .ok nxt := by
  simp [merge_scalar, h]

theorem merge_scalar_none_nxt {p : List String} {base : Option String}
    (hb : base ≠ some "") : merge_scalar p base Option.none = .ok base := by
  cases base with
  | none => simp [merge_scalar, truthyStr]
  | some a =>
    have ha : ¬a = "" := fun he => hb (by rw [he])
    simp [merge_scalar, truthyStr, ha]

theorem merge_scalar_self {p : List String} (x : Option String) :
    merge_scalar p x x = .ok x := by
  cases x with
  | none => simp [merge_scalar, truthyStr]
  | some a =>
    by_cases ha : a = ""
    · simp [merge_scalar, truthyStr, ha]
    · simp [merge_scalar, truthyStr, ha]

theorem merge_scalar_eq_vals {p : List String} {v : String} :
    merge_scalar p (some v) (some v) = .ok (some v) :=
  merge_scalar_self (some v)

/-- Success of the top-level merge implies success of each field's scalar
merge, at the result's field value. -/
theorem merge_ok_scalar {base nxt m : Journal} (h : Journal.merge base nxt = .ok m)
    (f : ScalarField) :
    merge_scalar [f.fieldName] (base.scalar f) (nxt.scalar f) = .ok (m.scalar f) := by
  unfold Journal.merge at h
  cases h1 : merge_scalar ["issn_print"] base.issn_print nxt.issn_print with
  | error c => rw [h1] at h; cases h
  | ok ip =>
    rw [h1] at h
    cases h2 : merge_scalar ["issn_web"] base.issn_web nxt.issn_web with
    | error c => rw [h2] at h; cases h
    | ok iw =>
      rw [h2] at h
      cases h3 : merge_scalar ["iso4"] base.iso4 nxt.iso4 with
      | error c => rw [h3] at h; cases h
      | ok i4 =>
        rw [h3] at h
        cases h4 : merge_scalar ["coden"] base.coden nxt.coden with
        | error c => rw [h4] at h; cases h
        | ok cd =>
          rw [h4] at h
          cases h
          cases f
          exacts [h1, h2, h3, h4]

theorem merge_ok_names {base nxt m : Journal} (h : Journal.merge base nxt = .ok m) :
    m.names = base.names ∪ nxt.names := by
  unfold Journal.merge at h
  cases h1 : merge_scalar ["issn_print"] base.issn_print nxt.issn_print with
  | error c => rw [h1] at h; cases h
  | ok ip =>
    rw [h1] at h
    cases h2 : merge_scalar ["issn_web"] base.issn_web nxt.issn_web with
    | error c => rw [h2] at h; cases h
    | ok iw =>
      rw [h2] at h
      cases h3 : merge_scalar ["iso4"] base.iso4 nxt.iso4 with
      | error c => rw [h3] at h; cases h
      | ok i4 =>
        rw [h3] at h
        cases h4 : merge_scalar ["coden"] base.coden nxt.coden with
        | error c => rw [h4] at h; cases h
        | ok cd =>
          rw [h4] at h
          cases h
          rfl

/-- A failed top-level merge surfaces the conflict of one of the scalar
fields. -/
theorem merge_error_char {base nxt : Journal} {c : MergeConflict}
    (h : Journal.merge base nxt = .error c) :
    ∃ f : ScalarField,
      merge_scalar [f.fieldName] (base.scalar f) (nxt.scalar f) = .error c := by
  unfold Journal.merge at h
  cases h1 : merge_scalar ["issn_print"] base.issn_print nxt.issn_print with
  | error c1 =>
    rw [h1] at h
    cases h
    exact ⟨.issn_print, h1⟩
  | ok ip =>
    rw [h1] at h
    cases h2 : merge_scalar ["issn_web"] base.issn_web nxt.issn_web with
    | error c2 =>
      rw [h2] at h
      cases h
      exact ⟨.issn_web, h2⟩
    | ok iw =>
      rw [h2] at h
      cases h3 : merge_scalar ["iso4"] base.iso4 nxt.iso4 with
      | error c3 =>
        rw [h3] at h
        cases h
        exact ⟨.iso4, h3⟩
      | ok i4 =>
        rw [h3] at h
        cases h4 : merge_scalar ["coden"] base.coden nxt.coden with
        | error c4 =>
          rw [h4] at h
          cases h
          exact ⟨.coden, h4⟩
        | ok cd =>
          rw [h4] at h
          cases h

/-- The codec round trip on a Journal record preserves it exactly. -/
theorem decode_encode (j : Journal) : decodeVal (encodeJournal j) = .journal j := by
  obtain ⟨names, ip, iw, i4, cd⟩ := j
  cases ip <;> cases iw <;> cases i4 <;> cases cd <;>
    simp [encodeJournal, Journal.asdict_enc, optField, encodeSet, decodeVal, decode_hook,
      decodeMapPayload, decodeFieldValue, decodeSetPayload, Journal.fromdict, aget,
      strs_roundtrip, setSort_toFinset]

/-! ## Object store (JournalDB)

The RocksDB handle with its three column families is modelled as `DBState`;
a `WriteBatch` as a list of operations applied atomically, in order, by
`applyBatch`.  The stored byte payloads are the packed values: the primary
table maps a JournalID to the packed record, the name index maps the
decoded string key (its dedicated comparator orders by the decoded string)
to the stored id. -/

structure SchemaVersion where
  major : Nat
  minor : Nat
  patch : Nat
deriving DecidableEq

/-- `packaging.version.Version` comparison, restricted to release triples. -/
def SchemaVersion.lt (a b : SchemaVersion) : Bool :=
  if a.major < b.major then true
  else if b.major < a.major then false
  else if a.minor < b.minor then true
  else if b.minor < a.minor then false
  else decide (a.patch < b.patch)

/-- The open store: parsed metadata (`journal_id` counter and
`schema.version`), the primary table, and the name index. -/
structure DBState where
  metadata_journal_id : Nat
  schema_version : SchemaVersion
  journals : List (Nat × MsgValue)
  names_index : List (String × Nat)

/-- One `rocksdb.WriteBatch` entry as issued by the facade.
`mergeJournalId` is `batch.merge` on the metadata `journal_id` key,
resolved at commit by `MetadataMergeOperator.merge`: decode the existing
value and the operand, sum them (the registered associative merge
operator; a missing existing value keeps the operand, which cannot happen
after `open()` initializes the counter to 0). -/
inductive BatchOp where
  | putJournal : Nat → MsgValue → BatchOp
  | delJournal : Nat → BatchOp
  | putIndex : String → Nat → BatchOp
  | delIndex : String → BatchOp
  | mergeJournalId : Nat → BatchOp

def applyOp (s : DBState) : BatchOp → DBState
  | .putJournal id v => { s with journals := aput s.journals id v }
  | .delJournal id => { s with journals := adel s.journals id }
  | .putIndex k id => { s with names_index := aput s.names_index k id }
  | .delIndex k => { s with names_index := adel s.names_index k }
  | .mergeJournalId d => { s with metadata_journal_id := s.metadata_journal_id + d }

/-- `db.write(batch)`: the batch commits atomically, entries in order. -/
def applyBatch (s : DBState) (b : List BatchOp) : DBState :=
  b.foldl applyOp s

/-- A freshly created store right after `open()` on a missing database:
`schema_version = latest`, `journal_id = 0`, empty tables. -/
def freshState (latest : SchemaVersion) : DBState :=
  { metadata_journal_id := 0, schema_version := latest, journals := [], names_index := [] }

namespace JournalList

/-- `JournalDB._gen_journal_id(batch)`: read the COMMITTED `journal_id`
metadata (`_get_metadata` reads from the database — pending batch
operations are not visible to reads), append `merge +1` to the batch, and
return the value that was read. -/
def gen_journal_id (s : DBState) (b : List BatchOp) : Nat × List BatchOp :=
  (s.metadata_journal_id, b ++ [.mergeJournalId 1])

/-- `get(id)`: `key_may_exist` probe (never a false negative; on a false
positive `db.get` returns None and `_unpack(None)` is None), then unpack
the stored bytes through the ext hook.  Stored primary values in this
program are always ExtType-10 records. -/
def get (s : DBState) (id : Nat) : Option Journal :=
  match aget s.journals id with
  | Option.none => Option.none
  | some v =>
    match decodeVal v with
    | .journal j => some j
    | _ => Option.none

/-- The batch operations of `add(journal, batch)`: allocate the id, put
the encoded record, then put one index entry per name under the key
`sanitize_journal_name(name).casefold()`. -/
def add_ops (s : DBState) (j : Journal) (b : List BatchOp) : Nat × List BatchOp :=
  match gen_journal_id s b with
  | (id, b1) =>
    (id, (b1 ++ [.putJournal id (encodeJournal j)])
        ++ (setSort j.names).map (fun n => .putIndex (index_key n) id))

/-- `add(journal)` with the implicit batch: build the operations and
commit them synchronously. -/
def add (s : DBState) (j : Journal) : Nat × DBState :=
  match add_ops s j [] with
  | (id, b) => (id, applyBatch s b)

/-- `remove(id)` with the implicit batch: a missing record reports False;
otherwise delete the record and, for each of its names, delete the index
key `_pack(name)` — the RAW display name, not the sanitized case-folded
form under which `add` indexed it. -/
def remove (s : DBState) (id : Nat) : Bool × DBState :=
  match get s id with
  | Option.none => (false, s)
  | some j =>
    (true, applyBatch s ([.delJournal id]
      ++ (setSort j.names).map (fun n => .delIndex n)))

/-- `update(id, journal_new, journal_old)` with the implicit batch:
`journal_old` defaults to `get(id)` (a missing record then raises
AttributeError on `journal_old.names`, modelled as `Option.none`); put the
new record; delete the index key `_pack(name)` for each removed name and
put `_pack(name) → id` for each added name — the RAW names on both sides,
unlike the sanitized case-folded keys `add` writes. -/
def update (s : DBState) (id : Nat) (jnew : Journal) (joldOpt : Option Journal) :
    Option DBState :=
  match joldOpt.orElse (fun _ => get s id) with
  | Option.none => Option.none
  | some jold =>
    some (applyBatch s (([.putJournal id (encodeJournal jnew)]
      ++ (setSort (jold.names \ jnew.names)).map (fun n => .delIndex n))
      ++ (setSort (jnew.names \ jold.names)).map (fun n => .putIndex n id)))

/-- `merge(id, journal_new, journal_old)`: resolve `journal_old`, compute
the three-way merge, and on success `update` with the merged record; the
merge exception propagates before any write is issued, so the store is
returned unchanged alongside the conflict. -/
def mergeOp (s : DBState) (id : Nat) (jnew : Journal) (joldOpt : Option Journal) :
    Option (DBState × Option MergeConflict) :=
  match joldOpt.orElse (fun _ => get s id) with
  | Option.none => Option.none
  | some jold =>
    match Journal.merge jold jnew with
    | .error c => some (s, some c)
    | .ok jm => some ((update s id jm (some jold)).getD s, Option.none)

/-- The `name_to_id` helper of `query`: index lookup under the sanitized
case-folded key. -/
def name_to_id (s : DBState) (name : String) : Option Nat :=
  aget s.names_index (index_key name)

/-- `Journal.matches(key, value)` for an exact-string predicate on the
names key: the query string is case-folded and compared against each
case-folded member. -/
def matches_names_str (j : Journal) (v : String) : Bool :=
  (setSort j.names).any (fun el => casefold el = casefold v)

/-- `__iter__`: every primary record, unpacked.  (Primary values in this
program always decode to records.) -/
def journalsList (s : DBState) : List (Nat × Journal) :=
  s.journals.filterMap (fun p =>
    match decodeVal p.2 with
    | .journal j => some (p.1, j)
    | _ => Option.none)

/-- The final line of `query`: linear scan of the primary table keeping the
records that match the predicate. -/
def scan_names_str (s : DBState) (v : String) : List (Nat × Journal) :=
  (journalsList s).filter (fun p => matches_names_str p.2 v)

/-- `query(names_key, value)` for an exact string: try the index via
`name_to_journal`, which asserts that an id found in the index resolves to
an existing record (`assert (id is None or journal is not None)`, the
failing assert modelled as `.error ()`); when the index lookup misses, the
walrus condition is falsy and control falls through to the linear scan. -/
def query_names_str (s : DBState) (name : String) :
    Except Unit (List (Nat × Journal)) :=
  match name_to_id s name with
  | some id =>
    match get s id with
    | some j => .ok [(id, j)]
    | Option.none => .error ()
  | Option.none => .ok (scan_names_str s name)

end JournalList

/-- `JournalDB._upgrade_schema`: iterates the primary records; the
version-indexed per-record transform `update_journal` returns None (the
historical stub), but the code tests `if update_journal is not None` — the
function object, which is always true — and calls `update(id, None)`,
which raises AttributeError on `journal_new.names` for any record, before
its batch is written.  On an empty store the loop body never runs, but the
final persist call is `self._pu_metadata(...)` (db.py:442) — an attribute
defined nowhere (the class has only `_put_metadata`) — which raises
AttributeError as well.  Either way the migration crashes without mutating
the store or persisting a schema version; modelled as `Option.none`. -/
def upgrade_schema (_latest : SchemaVersion) (_s : DBState) : Option DBState :=
  Option.none

/-- `open()` on a pre-existing database: read the stored version and
migrate iff it is strictly older than the compiled-in latest
(`cur_schema_version < self.latest_schema_version`) or the force flag is
set; otherwise the store opens as-is.  There is no check — and no error
path — for a stored version newer than the compiled-in one.
(`latest_schema_version = Version(__version__)` comes from the installed
package metadata, so the model takes it as a parameter.) -/
def open_existing (latest : SchemaVersion) (force : Bool) (s : DBState) : Option DBState :=
  if SchemaVersion.lt s.schema_version latest || force then upgrade_schema latest s
  else some s

example :
    JournalList.add (freshState ⟨0, 1, 0⟩) { names := {"Foo"} } =
      (0, { metadata_journal_id := 1, schema_version := ⟨0, 1, 0⟩,
            journals := [(0, encodeJournal { names := {"Foo"} })],
            names_index := [("foo", 0)] }) := by rfl

example : JournalList.get (JournalList.add (freshState ⟨0, 1, 0⟩) { names := {"Foo"} }).2 0 =
    some { names := {"Foo"} } := by decide

/-! ## Supporting lemmas for the claims -/

instance {e a : Type} [DecidableEq e] [DecidableEq a] : DecidableEq (Except e a) := fun x y =>
  match x, y with
  | .ok v, .ok w =>
    if h : v = w then isTrue (by rw [h]) else isFalse (by intro he; cases he; exact h rfl)
  | .error v, .error w =>
    if h : v = w then isTrue (by rw [h]) else isFalse (by intro he; cases he; exact h rfl)
  | .ok _, .error _ => isFalse (by intro he; cases he)
  | .error _, .ok _ => isFalse (by intro he; cases he)

theorem applyBatch_append (s : DBState) (b1 b2 : List BatchOp) :
    applyBatch s (b1 ++ b2) = applyBatch (applyBatch s b1) b2 :=
  List.foldl_append applyOp s b1 b2

theorem journals_applyBatch_putIndex (ns : List String) (s : DBState)
    (key : String → String) (id : Nat) :
    (applyBatch s (ns.map (fun n => BatchOp.putIndex (key n) id))).journals = s.journals := by
  induction ns generalizing s with
  | nil => rfl
  | cons n ns ih =>
    show (applyBatch (applyOp s (.putIndex (key n) id)) (ns.map _)).journals = s.journals
    rw [ih]
    rfl

theorem matches_names_str_iff (j : Journal) (v : String) :
    JournalList.matches_names_str j v = true ↔ ∃ n ∈ j.names, casefold n = casefold v := by
  unfold JournalList.matches_names_str
  rw [List.any_eq_true]
  constructor
  · rintro ⟨n, hn, he⟩
    exact ⟨n, mem_setSort.mp hn, of_decide_eq_true he⟩
  · rintro ⟨n, hn, he⟩
    exact ⟨n, mem_setSort.mpr hn, decide_eq_true he⟩

theorem schemaVersionLt_asymm {a b : SchemaVersion} (h : SchemaVersion.lt a b = true) :
    SchemaVersion.lt b a = false := by
  rcases a with ⟨a1, a2, a3⟩
  rcases b with ⟨b1, b2, b3⟩
  simp only [SchemaVersion.lt] at h ⊢
  split_ifs at h ⊢ <;> simp_all <;> omega

/-! ## The claims -/

def c1_j1 : Journal := { names := {"Alpha"} }

def c1_j2 : Journal := { names := {"Beta"} }

/-- C1: the claim fails on the code.  Two `add` calls composed into one
caller-supplied batch (committed once at the end) both call
`_gen_journal_id`, which returns the COMMITTED counter value — 0 on a
fresh store — and only appends `merge +1` to the still-uncommitted batch:
both calls return JournalID 0, the second record overwrites the first at
commit, and the counter then jumps to 2. -/
theorem c1_shared_batch_duplicate_ids :
    (JournalList.add_ops (freshState ⟨0, 1, 0⟩) c1_j1 []).1 = 0 ∧
    (JournalList.add_ops (freshState ⟨0, 1, 0⟩) c1_j2
      (JournalList.add_ops (freshState ⟨0, 1, 0⟩) c1_j1 []).2).1 = 0 ∧
    (applyBatch (freshState ⟨0, 1, 0⟩)
      (JournalList.add_ops (freshState ⟨0, 1, 0⟩) c1_j2
        (JournalList.add_ops (freshState ⟨0, 1, 0⟩) c1_j1 []).2).2).journals
      = [(0, encodeJournal c1_j2)] ∧
    (applyBatch (freshState ⟨0, 1, 0⟩)
      (JournalList.add_ops (freshState ⟨0, 1, 0⟩) c1_j2
        (JournalList.add_ops (freshState ⟨0, 1, 0⟩) c1_j1 []).2).2).metadata_journal_id = 2 :=
  ⟨rfl, rfl, rfl, rfl⟩

def c2_j : Journal := { names := {"Foo"} }

def c2_s1 : DBState := (JournalList.add (freshState ⟨0, 1, 0⟩) c2_j).2

def c2_s2 : DBState := (JournalList.remove c2_s1 0).2

/-- C2: the positive half holds after `add` (querying the exact name "Foo"
yields id 0), but the removal half fails on the code: `remove` deletes the
index key `_pack(name)` — the raw name "Foo" — while `add` indexed the
record under the sanitized case-folded key "foo", so the entry "foo" → 0
survives the removal; the subsequent query finds the orphan id, `get`
returns nothing for it, and the `assert (id is None or journal is not
None)` inside `query` fails. -/
theorem c2_remove_leaves_orphan_index :
    JournalList.query_names_str c2_s1 "Foo" = .ok [(0, c2_j)] ∧
    (JournalList.remove c2_s1 0).1 = true ∧
    JournalList.get c2_s2 0 = Option.none ∧
    aget c2_s2.names_index "foo" = some 0 ∧
    JournalList.query_names_str c2_s2 "Foo" = .error () := by
  decide

def c3_prev : Journal := { names := {"alpha"}, iso4 := some "ABC" }

def c3_nxt : Journal := { names := {"alpha"}, iso4 := some "XYZ" }

def c3_state : DBState := (JournalList.add (freshState ⟨0, 1, 0⟩) c3_prev).2

/-- C3: when the stored record at `id` decodes to `prev` and some scalar
field is present (truthy) on both sides with unequal values, `merge`
fails: the conflict carries a conflicting field's path and both of its
values, and the store is returned unmodified (no write is issued before
the exception propagates). -/
theorem c3_merge_conflict_aborts (s : DBState) (id : Nat) (prev nxt : Journal)
    (f : ScalarField) (hprev : JournalList.get s id = some prev)
    (hc : conflictOn prev nxt f) :
    ∃ c : MergeConflict, JournalList.mergeOp s id nxt Option.none = some (s, some c) ∧
      ∃ g : ScalarField, conflictOn prev nxt g ∧ c.path = [g.fieldName] ∧
        prev.scalar g = some c.base_value ∧ nxt.scalar g = some c.nxt_value := by
  have ho : (Option.none : Option Journal).orElse (fun _ => JournalList.get s id) = some prev := by
    simp [Option.orElse, hprev]
  have hop : JournalList.mergeOp s id nxt Option.none =
      (match Journal.merge prev nxt with
        | .error c => some (s, some c)
        | .ok jm => some ((JournalList.update s id jm (some prev)).getD s, Option.none)) := by
    unfold JournalList.mergeOp
    rw [ho]
  cases hm : Journal.merge prev nxt with
  | ok m =>
    exfalso
    obtain ⟨a, b, ha, hane, hb, hab⟩ := hc
    exact hab (merge_scalar_ok (merge_ok_scalar hm f) a b ha hane hb)
  | error c =>
    rw [hm] at hop
    refine ⟨c, hop, ?_⟩
    obtain ⟨g, hg⟩ := merge_error_char hm
    obtain ⟨a, b, ha, hane, hb, hab, hceq⟩ := merge_scalar_error hg
    subst hceq
    exact ⟨g, ⟨a, b, ha, hane, hb, hab⟩, rfl, by rw [ha], by rw [hb]⟩

/-- C3 witness: a stored record with iso4 "ABC" merged against an incoming
iso4 "XYZ" surfaces a conflict and leaves the store unchanged. -/
theorem c3_merge_conflict_aborts_witness :
    ∃ c : MergeConflict, JournalList.mergeOp c3_state 0 c3_nxt Option.none =
      some (c3_state, some c) :=
  match c3_merge_conflict_aborts c3_state 0 c3_prev c3_nxt .iso4 (by decide)
      ⟨"ABC", "XYZ", by decide, by decide, by decide, by decide⟩ with
  | ⟨c, h1, _⟩ => ⟨c, h1⟩

def c4_old : Journal := { names := {"bar"} }

def c4_new : Journal := { names := {"bar", "Foo"} }

def c4_s1 : DBState := (JournalList.add (freshState ⟨0, 1, 0⟩) c4_old).2

/-- C4: the claim fails on the code.  `update` with
next.names = old.names ∪ \x7b"Foo"\x7d does create exactly one new index entry
and deletes none, but it writes the key `_pack(name)` — the raw "Foo" —
not the sanitized case-folded "foo" the claim (and `add`) uses: after the
update the index holds "Foo" → 0 and no "foo" entry. -/
theorem c4_update_misses_sanitized_key :
    (JournalList.update c4_s1 0 c4_new Option.none).map
        (fun s2 => (aget s2.names_index "Foo", aget s2.names_index "foo",
                    aget s2.names_index "bar", s2.names_index.length)) =
      some (some 0, Option.none, some 0, 2) := by
  decide

/-- C5 counterexample: the sanitization pipeline (regex removal, character
filter, caller-side casefold) maps "The Journal of Foo: A Study" to
"journal of foo: study" — the mid-string article "A " is stripped too —
not to the claimed "journal of foo: a study". -/
theorem c5_counterexample_midstring_article :
    index_key "The Journal of Foo: A Study" = "journal of foo: study" ∧
    index_key "The Journal of Foo: A Study" ≠ "journal of foo: a study" := by
  decide

/-- C5 amended: sanitization strips EVERY occurrence of a listed article
that starts at a word boundary and is followed by whitespace (or the
elided l' form) — mid-string occurrences included, since the regex is
anchored only by a word boundary and `re.sub` replaces all matches — then
retains only letter, number, separator/space and colon characters, and the
index key is the case-folded result; in particular
"The Journal of Foo: A Study" maps to "journal of foo: study" and the
mid-string article of "Foo the Bar" is stripped to "foo bar". -/
theorem c5_amended_sanitization (name : String) :
    index_key "The Journal of Foo: A Study" = "journal of foo: study" ∧
    index_key "Foo the Bar" = "foo bar" ∧
    ∀ c ∈ (JournalList.sanitize_journal_name name).toList, keepChar c = true := by
  refine ⟨by decide, by decide, ?_⟩
  intro c hc
  exact List.of_mem_filter hc

/-- C5 witness: the amended theorem applied at a concrete input and a
concrete retained character. -/
theorem c5_amended_sanitization_witness : keepChar 'J' = true :=
  (c5_amended_sanitization "The Journal of Foo: A Study").2.2 'J' (by decide)

/-- C6: for every store state and Journal j, `get` of the id returned by
`add(j)` returns exactly j — the encode/store/decode round trip preserves
the record (names by set equality, scalars including absent ones). -/
theorem c6_get_add_roundtrip (s : DBState) (j : Journal) :
    JournalList.get (JournalList.add s j).2 (JournalList.add s j).1 = some j := by
  show JournalList.get (applyBatch s ([.mergeJournalId 1,
      .putJournal s.metadata_journal_id (encodeJournal j)] ++
      (setSort j.names).map (fun n => .putIndex (index_key n) s.metadata_journal_id)))
      s.metadata_journal_id = some j
  rw [applyBatch_append]
  unfold JournalList.get
  rw [journals_applyBatch_putIndex]
  show (match aget (aput s.journals s.metadata_journal_id (encodeJournal j))
      s.metadata_journal_id with
    | Option.none => Option.none
    | some v =>
      match decodeVal v with
      | .journal j => some j
      | _ => Option.none) = some j
  rw [aget_aput_self]
  show (match decodeVal (encodeJournal j) with
    | .journal j' => some j'
    | _ => Option.none) = some j
  rw [decode_encode]

/-- C7: three-way merge is set union on the names field (commutative and
idempotent), and on scalar fields it adopts the incoming side over an
absent base, keeps a present base over an absent incoming side, and keeps
the value when both sides agree. -/
theorem c7_merge_field_algebra (base nxt : Journal) :
    (∀ m, Journal.merge base nxt = .ok m → m.names = base.names ∪ nxt.names) ∧
    (∀ m m', Journal.merge base nxt = .ok m → Journal.merge nxt base = .ok m' →
      m.names = m'.names) ∧
    Journal.merge base base = .ok base ∧
    (∀ f : ScalarField, ∀ m, Journal.merge base nxt = .ok m →
      base.scalar f = Option.none → m.scalar f = nxt.scalar f) ∧
    (∀ f : ScalarField, ∀ m, Journal.merge base nxt = .ok m →
      nxt.scalar f = Option.none → base.scalar f ≠ some "" → m.scalar f = base.scalar f) ∧
    (∀ f : ScalarField, ∀ v, ∀ m, Journal.merge base nxt = .ok m →
      base.scalar f = some v → nxt.scalar f = some v → m.scalar f = some v) := by
  refine ⟨?_, ?_, ?_, ?_, ?_, ?_⟩
  · intro m h
    exact merge_ok_names h
  · intro m m' h h'
    rw [merge_ok_names h, merge_ok_names h']
    exact Finset.union_comm _ _
  · show Journal.merge base base = .ok base
    unfold Journal.merge
    rw [merge_scalar_self, merge_scalar_self, merge_scalar_self, merge_scalar_self,
      Finset.union_self]
  · intro f m h hb
    have hsc := merge_ok_scalar h f
    rw [hb, @merge_scalar_falsy [f.fieldName] Option.none (nxt.scalar f) rfl] at hsc
    injection hsc with h'
    exact h'.symm
  · intro f m h hn hb
    have hsc := merge_ok_scalar h f
    rw [hn, merge_scalar_none_nxt hb] at hsc
    injection hsc with h'
    exact h'.symm
  · intro f v m h hb hn
    have hsc := merge_ok_scalar h f
    rw [hb, hn, merge_scalar_eq_vals] at hsc
    injection hsc with h'
    exact h'.symm

def c7_base : Journal := { names := {"x"}, iso4 := some "Z" }

def c7_nxt : Journal := { names := {"y"} }

def c7_merged : Journal := { names := {"x", "y"}, iso4 := some "Z" }

/-- C7 witness: the algebra evaluated at concrete records. -/
theorem c7_merge_field_algebra_witness :
    Journal.merge c7_base c7_nxt = .ok c7_merged ∧
    c7_merged.names = c7_base.names ∪ c7_nxt.names :=
  ⟨by decide, (c7_merge_field_algebra c7_base c7_nxt).1 c7_merged (by decide)⟩

def c8_state : DBState := freshState ⟨99, 0, 0⟩

/-- C8 counterexample: with compiled-in latest 0.1.0 and a pre-existing
store whose persisted schema_version is the strictly newer 99.0.0,
`open()` (without the force flag, the call the claim concerns) does not
fail with a SchemaError — there is no SchemaError anywhere in the code: it
returns normally, no migration runs, and the version stays 99.0.0. -/
theorem c8_counterexample_newer_version :
    SchemaVersion.lt ⟨0, 1, 0⟩ ⟨99, 0, 0⟩ = true ∧
    open_existing ⟨0, 1, 0⟩ false c8_state = some c8_state :=
  ⟨rfl, rfl⟩

/-- C8 amended: `open()` with a stored schema_version that is not older
than (in particular: strictly newer than) the compiled-in latest raises no
SchemaError — no such error exists in the code: without
force_upgrade_schema it succeeds silently, no migration runs, and the
stored schema_version is unchanged; with force_upgrade_schema the
migration is attempted but crashes with AttributeError (at the undefined
`self._pu_metadata`, db.py:442, or earlier in the per-record loop) before
persisting anything, so the stored schema_version is indeed never
decreased. -/
theorem c8_amended_newer_version_accepted (latest : SchemaVersion) (s : DBState)
    (h : SchemaVersion.lt latest s.schema_version = true) :
    open_existing latest false s = some s ∧
    open_existing latest true s = Option.none := by
  have hna := schemaVersionLt_asymm h
  constructor
  · simp [open_existing, hna]
  · simp [open_existing, upgrade_schema]

/-- C8 witness: the amended behavior at a stored version 99.0.0 against
latest 0.1.0. -/
theorem c8_amended_newer_version_accepted_witness :
    open_existing ⟨0, 1, 0⟩ false (freshState ⟨99, 0, 0⟩) = some (freshState ⟨99, 0, 0⟩) :=
  (c8_amended_newer_version_accepted ⟨0, 1, 0⟩ (freshState ⟨99, 0, 0⟩) (by decide)).1

/-- C9: `_encode` fails on a value of an unrecognized type with an error
naming that type, while `_decode` of an extension value with an
unrecognized code (neither 1 nor 10) does not fail and preserves the
extension value with its code and payload intact. -/
theorem c9_codec_unknown_type_and_ext (t : String) (c : Nat) (p : MsgValue)
    (h1 : c ≠ 1) (h10 : c ≠ 10) :
    encodeVal (.other t) = .error ⟨t⟩ ∧ decode_hook c p = .ext c p := by
  refine ⟨rfl, ?_⟩
  simp [decode_hook, h1, h10]

/-- C9 witness: a foreign type name and extension code 7. -/
theorem c9_codec_unknown_type_and_ext_witness :
    encodeVal (.other "Foo") = .error ⟨"Foo"⟩ ∧
    decode_hook 7 (.str "x") = .ext 7 (.str "x") :=
  c9_codec_unknown_type_and_ext "Foo" 7 (.str "x") (by decide) (by decide)

/-- C10: when the exact-string query on the names key misses the secondary
index (no entry under the sanitized case-folded form), `query` does not
return empty: it falls through to the full linear scan of the primary
table and yields exactly the records one of whose names equals the query
string under case-folding. -/
theorem c10_query_fallback_scan (s : DBState) (name : String)
    (h : JournalList.name_to_id s name = Option.none) :
    JournalList.query_names_str s name = .ok (JournalList.scan_names_str s name) ∧
    ∀ id j, (id, j) ∈ JournalList.scan_names_str s name ↔
      ((id, j) ∈ JournalList.journalsList s ∧ ∃ n ∈ j.names, casefold n = casefold name) := by
  constructor
  · unfold JournalList.query_names_str
    rw [h]
  · intro id j
    unfold JournalList.scan_names_str
    rw [List.mem_filter]
    exact and_congr_right (fun _ => matches_names_str_iff j name)

def c10_j : Journal := { names := {"Foo"} }

def c10_state : DBState :=
  { metadata_journal_id := 1, schema_version := ⟨0, 1, 0⟩,
    journals := [(0, encodeJournal c10_j)], names_index := [] }

/-- C10 witness: a store holding the record but no index entry (as after
`delete_indexes`): the query falls back to the scan and still finds the
record by case-folded name equality. -/
theorem c10_query_fallback_scan_witness :
    JournalList.query_names_str c10_state "FOO" = .ok [(0, c10_j)] := by
  rw [(c10_query_fallback_scan c10_state "FOO" (by decide)).1]
  exact congrArg Except.ok (by decide)
